import Mathlib

/-!
# Verification of the fleet-wide change-notification controller

Shallow embedding of `GlobalNotifierBase` (src/src/global_notifier.cpp together
with its header): the admin topology discovery loop `on_admin_change`, the
session registry (`m_known_realms`, `m_listen_entries`, `m_next_listen_ident`)
and the accessors `get_realm_name` / `get_realm`.

Conventions of the embedding:
* C++ member state becomes the explicit record `NState`; every method takes the
  state and returns it (possibly updated), even though exceptions propagate:
  `StepResult` carries the outcome (`Except Err Unit`), the post-state, and the
  trace of externally observable events (filter invocations, session opens,
  `AsyncTarget::on_regular_change` invocations).
* External collaborators (the application's `filter_callback`, the sync session
  factory, `util::File::resolve`, `util_Uri_resolve`, `Realm::get_shared_realm`)
  are oracles packaged in `Env`; a `none` / `true`-failure result models the
  corresponding C++ call throwing.
* `m_next_listen_ident` is `std::int_fast64_t` starting at 0 and only ever
  incremented once per accepted realm; overflow is unreachable in any modelled
  execution, so it is embedded as `Nat`.
* `std::unordered_set<std::string>` is embedded as a duplicate-free `List
  String` with membership-guarded insert; `std::unordered_map` as an
  association list with emplace semantics (no-op when the key is present).
-/

/-- Errors thrown by the controller, tagged with their provenance.  In the C++
source every one of these is a propagated exception; the tag is ghost
information recording which call site threw. -/
inductive Err where
  /-- Source: `"Unexpected schema in admin Realm (1)"`: the `RealmFile` table is absent. -/
  | schemaViolation1
  /-- Source: `"Unexpected schema in admin Realm (2)"`: the `id` or `path` column is absent. -/
  | schemaViolation2
  /-- The application's `filter_callback` threw. -/
  | filterThrew
  /-- Source: `RealmCoordinator::get_sync_session` threw. -/
  | sessionOpenFailed
  /-- Source: `m_listen_entries.emplace` threw (allocation failure). -/
  | emplaceFailed
  /-- Source: `AsyncTarget::on_regular_change` (outside the `try` block) threw. -/
  | notifyThrew
  /-- Source: `m_listen_entries.at` threw `std::out_of_range` (unknown listener). -/
  | unknownListener
deriving DecidableEq, Repr

/-- Externally observable events emitted while the controller runs. -/
inductive Event where
  /-- Source: `filter_callback(name)` was invoked for the row with this id and virtual path. -/
  | filterCall (id : String) (path : String)
  /-- Source: `RealmCoordinator::get_sync_session` succeeded for the listener slot. -/
  | sessionOpen (ident : Nat) (local_path : String) (server_url : String)
  /-- Source: `AsyncTarget::on_regular_change(listen_ident)` was invoked. -/
  | regularChange (ident : Nat)
deriving DecidableEq, Repr

/-- One sync session handle, determined by the arguments of
`RealmCoordinator::get_sync_session`; `callback_ident` is the `listen_ident`
captured by the bound commit callback. -/
structure Session where
  local_path : String
  server_url : String
  access_token : String
  callback_ident : Nat
deriving DecidableEq, Repr

/-- Source: `GlobalNotifierBase::ListenEntry`. -/
structure ListenEntry where
  realm_id : String
  realm_name : String
  sync_session : Session
deriving DecidableEq, Repr

/-- The mutable member state of `GlobalNotifierBase`. -/
structure NState where
  /-- Source: `m_known_realms`. -/
  known_realms : List String
  /-- Source: `m_listen_entries`, as an association list keyed by `listen_ident`. -/
  listen_entries : List (Nat × ListenEntry)
  /-- Source: `m_next_listen_ident`. -/
  next_listen_ident : Nat
deriving DecidableEq, Repr

/-- The immutable (`const`) member fields set by the constructor. -/
structure NCfg where
  local_admin_realm_path : String
  regular_realms_dir : String
  server_base_url : String
  access_token : String
deriving DecidableEq, Repr

/-- Oracles for the external collaborators. -/
structure Env where
  /-- Source: `util::File::resolve(name, base_dir)`. -/
  file_resolve : String → String → String
  /-- Source: `util_Uri_resolve(path, base_uri)`. -/
  uri_resolve : String → String → String
  /-- The application's `filter_callback`; `none` models it throwing. -/
  filter_res : String → Option Bool
  /-- Whether `get_sync_session(local_path, server_url, ...)` throws. -/
  session_fails : String → String → Bool
  /-- Whether `m_listen_entries.emplace` throws for this key. -/
  emplace_fails : Nat → Bool
  /-- Whether `AsyncTarget::on_regular_change(ident)` throws. -/
  notify_fails : Nat → Bool
  /-- Source: `realm->read_group().is_empty()` for the realm file at a local path. -/
  realm_group_is_empty : String → Bool

/-- One row of the `RealmFile` table of the admin realm: the values of its
`id` and `path` columns. -/
structure AdminRow where
  id : String
  path : String
deriving DecidableEq, Repr

/-- The read snapshot of the admin realm taken at the top of
`on_admin_change`: the facts the function inspects. -/
structure AdminSnapshot where
  /-- Source: `group.is_empty()`. -/
  group_is_empty : Bool
  /-- Source: `ObjectStore::table_for_object_type(group, "RealmFile")` found the table. -/
  has_realmfile_table : Bool
  /-- Source: `realms->get_column_index("id") != not_found`. -/
  has_id_col : Bool
  /-- Source: `realms->get_column_index("path") != not_found`. -/
  has_path_col : Bool
  /-- The `(id, path)` values of the table's rows, in row order. -/
  rows : List AdminRow
deriving DecidableEq, Repr

/-- Outcome of one (partial) controller operation: result, post-state, trace. -/
structure StepResult where
  res : Except Err Unit
  st : NState
  tr : List Event
deriving Repr

/-- Set insert for duplicate-free lists (`std::unordered_set::insert`). -/
def setInsert {α : Type} [DecidableEq α] (s : List α) (c : α) : List α :=
  if c ∈ s then s else c :: s

/-- Association-list lookup (`std::unordered_map::find` / `at`). -/
def mapFind (m : List (Nat × ListenEntry)) (k : Nat) : Option ListenEntry :=
  match m with
  | [] => none
  | (k', v) :: rest => if k' = k then some v else mapFind rest k

/-- Association-list emplace (`std::unordered_map::emplace`): inserts only when
the key is absent. -/
def mapInsert (m : List (Nat × ListenEntry)) (k : Nat) (v : ListenEntry) :
    List (Nat × ListenEntry) :=
  match mapFind m k with
  | some _ => m
  | none => (k, v) :: m

/-- Source: `GlobalNotifierBase::get_local_path`. -/
def get_local_path (env : Env) (cfg : NCfg) (realm_id : String) : String :=
  env.file_resolve (realm_id ++ ".realm") cfg.regular_realms_dir

/-- Source: `GlobalNotifierBase::get_server_url`. -/
def get_server_url (env : Env) (cfg : NCfg) (realm_name : String) : String :=
  env.uri_resolve realm_name cfg.server_base_url

/-- The state of a freshly constructed `GlobalNotifierBase`. -/
def initState : NState :=
  { known_realms := [], listen_entries := [], next_listen_ident := 0 }

/-- The body of the row loop of `GlobalNotifierBase::on_admin_change`
(src/src/global_notifier.cpp lines 101-139) for a single row.  Mirrors the
source exactly: skip rows whose id is already known; otherwise insert the id
into `m_known_realms` first, then inside the `try` block call the filter,
derive paths, open the session and emplace the `ListenEntry` (erasing the id
again and rethrowing on failure), and finally — outside the `try` block —
invoke `on_regular_change` with the allocated ident. -/
def processRow (env : Env) (cfg : NCfg) (σ : NState) (row : AdminRow) : StepResult :=
  if row.id ∈ σ.known_realms then ⟨.ok (), σ, []⟩
  else
    let known1 := setInsert σ.known_realms row.id
    let ident := σ.next_listen_ident
    match env.filter_res row.path with
    | none =>
        ⟨.error .filterThrew, { σ with known_realms := known1.erase row.id },
          [.filterCall row.id row.path]⟩
    | some false =>
        ⟨.ok (), { σ with known_realms := known1 }, [.filterCall row.id row.path]⟩
    | some true =>
        let local_path := get_local_path env cfg row.id
        let server_url := get_server_url env cfg row.path
        if env.session_fails local_path server_url then
          ⟨.error .sessionOpenFailed, { σ with known_realms := known1.erase row.id },
            [.filterCall row.id row.path]⟩
        else
          let session : Session := ⟨local_path, server_url, cfg.access_token, ident⟩
          if env.emplace_fails ident then
            ⟨.error .emplaceFailed, { σ with known_realms := known1.erase row.id },
              [.filterCall row.id row.path, .sessionOpen ident local_path server_url]⟩
          else
            let entry : ListenEntry := ⟨row.id, row.path, session⟩
            let σ2 : NState :=
              { known_realms := known1,
                listen_entries := mapInsert σ.listen_entries ident entry,
                next_listen_ident := ident + 1 }
            if env.notify_fails ident then
              ⟨.error .notifyThrew, σ2,
                [.filterCall row.id row.path, .sessionOpen ident local_path server_url,
                 .regularChange ident]⟩
            else
              ⟨.ok (), σ2,
                [.filterCall row.id row.path, .sessionOpen ident local_path server_url,
                 .regularChange ident]⟩

/-- The row loop of `on_admin_change`: rows are processed in order; a thrown
exception aborts the remainder of the loop. -/
def processRows (env : Env) (cfg : NCfg) : NState → List AdminRow → StepResult
  | σ, [] => ⟨.ok (), σ, []⟩
  | σ, row :: rest =>
    let r1 := processRow env cfg σ row
    match r1.res with
    | .error e => ⟨.error e, r1.st, r1.tr⟩
    | .ok _ =>
      let r2 := processRows env cfg r1.st rest
      ⟨r2.res, r2.st, r1.tr ++ r2.tr⟩

/-- Source: `GlobalNotifierBase::on_admin_change` (src/src/global_notifier.cpp lines
84-140), applied to the read snapshot of the admin realm it opens. -/
def on_admin_change (env : Env) (cfg : NCfg) (snap : AdminSnapshot) (σ : NState) :
    StepResult :=
  if snap.group_is_empty then ⟨.ok (), σ, []⟩
  else if !snap.has_realmfile_table then ⟨.error .schemaViolation1, σ, []⟩
  else if !snap.has_id_col || !snap.has_path_col then ⟨.error .schemaViolation2, σ, []⟩
  else processRows env cfg σ snap.rows

/-- Source: `GlobalNotifierBase::get_realm_name` (lines 143-148).  The state is
threaded to make the frame property a statement rather than a convention. -/
def get_realm_name (σ : NState) (listen_ident : Nat) : Except Err String × NState :=
  match mapFind σ.listen_entries listen_ident with
  | none => (.error .unknownListener, σ)
  | some entry => (.ok entry.realm_name, σ)

/-- The `Realm::Config` fields that `get_realm` sets before opening. -/
structure RealmConfig where
  path : String
  automatic_change_notifications : Bool
  cache : Bool
  sync_server_url : String
  sync_user_token : String
deriving DecidableEq, Repr

/-- Source: `GlobalNotifierBase::get_realm` (lines 151-165).  The returned handle is
identified with the `Realm::Config` it was opened with; `none` models the
`realm.reset()` performed when the opened realm's schema is still empty. -/
def get_realm (env : Env) (cfg : NCfg) (σ : NState) (listen_ident : Nat) :
    Except Err (Option RealmConfig) × NState :=
  match mapFind σ.listen_entries listen_ident with
  | none => (.error .unknownListener, σ)
  | some entry =>
    let config : RealmConfig :=
      { path := get_local_path env cfg entry.realm_id,
        automatic_change_notifications := false,
        cache := false,
        sync_server_url := get_server_url env cfg entry.realm_name,
        sync_user_token := cfg.access_token }
    let empty_schema := env.realm_group_is_empty config.path
    (.ok (if empty_schema then none else some config), σ)

/-- A whole run: the async dispatch layer invokes `on_admin_change` once per
admin-realm change notification; an exception escaping one invocation is
caught by the driver and does not prevent later invocations. -/
structure RunResult where
  st : NState
  tr : List Event
  results : List (Except Err Unit)

/-- Sequential composition of `on_admin_change` invocations, one per admin
snapshot, collecting the per-invocation outcomes. -/
def runCycles (env : Env) (cfg : NCfg) : NState → List AdminSnapshot → RunResult
  | σ, [] => ⟨σ, [], []⟩
  | σ, snap :: rest =>
    let r := on_admin_change env cfg snap σ
    let rr := runCycles env cfg r.st rest
    ⟨rr.st, r.tr ++ rr.tr, r.res :: rr.results⟩

/-- Does the event record a `filter_callback` invocation for this realm id? -/
def isFilterCallFor (c : String) : Event → Bool
  | .filterCall id _ => id = c
  | _ => false

/-- Modelled from the spec: the Notification Pipeline of §4.4 is not among the
sources under src/ — only the tests (src/tests/global_notifier.cpp) exercise
`pause()`, `resume()` and `has_pending()`.  Per §4.4, each tracked container is
IDLE or PENDING (here: membership of its ident in `pending`), there is one
global `paused` flag, and `deliveries` is the trace of `realm_changed`
invocations, oldest first. -/
structure Pipeline where
  paused : Bool
  pending : List Nat
  deliveries : List Nat
deriving DecidableEq, Repr

/-- Modelled from the spec (§4.4): a commit callback for the container with
this ident.  Not paused: deliver immediately (`realm_changed`).  Paused: merge
into the at-most-one buffered notification for that container and move
to/stay in PENDING. -/
def Pipeline.commit (p : Pipeline) (c : Nat) : Pipeline :=
  if p.paused then { p with pending := setInsert p.pending c }
  else { p with deliveries := p.deliveries ++ [c] }

/-- Modelled from the spec (§4.4): `pause()`. -/
def Pipeline.pause (p : Pipeline) : Pipeline :=
  { p with paused := true }

/-- Modelled from the spec (§4.4): `resume()` delivers the buffered cumulative
notification of every PENDING container synchronously, once each, and clears
the paused flag. -/
def Pipeline.resume (p : Pipeline) : Pipeline :=
  { paused := false, pending := [], deliveries := p.deliveries ++ p.pending }

/-- Modelled from the spec (§4.4): `has_pending()` is true iff at least one
tracked container is currently in PENDING. -/
def Pipeline.has_pending (p : Pipeline) : Bool :=
  !p.pending.isEmpty

/-- Runs `n` successive commit callbacks for container `c`. -/
def Pipeline.commitN : Nat → Pipeline → Nat → Pipeline
  | 0, p, _ => p
  | n + 1, p, c => Pipeline.commitN n (p.commit c) c

/-! ## Shared helper lemmas -/

lemma get_realm_name_state (σ : NState) (ident : Nat) :
    (get_realm_name σ ident).2 = σ := by
  unfold get_realm_name
  cases mapFind σ.listen_entries ident <;> rfl

lemma get_realm_state (env : Env) (cfg : NCfg) (σ : NState) (ident : Nat) :
    (get_realm env cfg σ ident).2 = σ := by
  unfold get_realm
  cases mapFind σ.listen_entries ident <;> rfl

/-! ## Concrete instances used by the witnesses -/

def envW : Env :=
  { file_resolve := fun n b => b ++ "/" ++ n,
    uri_resolve := fun p b => b ++ p,
    filter_res := fun _ => some true,
    session_fails := fun _ _ => false,
    emplace_fails := fun _ => false,
    notify_fails := fun _ => false,
    realm_group_is_empty := fun _ => false }

def cfgW : NCfg :=
  { local_admin_realm_path := "/root/admin.realm",
    regular_realms_dir := "/root/realms",
    server_base_url := "http://srv",
    access_token := "tok" }

def entryW : ListenEntry :=
  { realm_id := "a", realm_name := "/a",
    sync_session := { local_path := "/root/realms/a.realm",
                      server_url := "http://srv/a",
                      access_token := "tok", callback_ident := 0 } }

def stateW : NState :=
  { known_realms := ["a"], listen_entries := [(0, entryW)], next_listen_ident := 1 }

/-! ## Claims C3, C4, C5, C9 -/

/-- C3: for every `listen_ident` with no entry in the session registry, both
`get_realm_name` and `get_realm` fail with the UnknownListener error
(`m_listen_entries.at` throwing `std::out_of_range`), and the controller's
state is unchanged by the failed call. -/
theorem claim_C3 (env : Env) (cfg : NCfg) (σ : NState) (ident : Nat)
    (h : mapFind σ.listen_entries ident = none) :
    get_realm_name σ ident = (.error .unknownListener, σ) ∧
    get_realm env cfg σ ident = (.error .unknownListener, σ) := by
  constructor
  · unfold get_realm_name
    rw [h]
  · unfold get_realm
    rw [h]

/-- Witness for C3 at a freshly constructed controller and ident 0. -/
theorem claim_C3_witness :
    get_realm_name initState 0 = (.error .unknownListener, initState) ∧
    get_realm envW cfgW initState 0 = (.error .unknownListener, initState) :=
  claim_C3 envW cfgW initState 0 rfl

/-- C4: for every `listen_ident` present in the registry, `get_realm` opens a
read handle whose config is non-caching (`cache = false`) and
notification-disabled (`automatic_change_notifications = false`) at the
container's local replica path, and the result is absent (`none`) if and only
if the opened container's schema is still empty; otherwise it is the live
handle. -/
theorem claim_C4 (env : Env) (cfg : NCfg) (σ : NState) (ident : Nat)
    (entry : ListenEntry) (h : mapFind σ.listen_entries ident = some entry) :
    get_realm env cfg σ ident =
      (.ok (if env.realm_group_is_empty (get_local_path env cfg entry.realm_id)
            then none
            else some { path := get_local_path env cfg entry.realm_id,
                        automatic_change_notifications := false,
                        cache := false,
                        sync_server_url := get_server_url env cfg entry.realm_name,
                        sync_user_token := cfg.access_token }), σ) ∧
    ((get_realm env cfg σ ident).1 = .ok none ↔
       env.realm_group_is_empty (get_local_path env cfg entry.realm_id) = true) := by
  constructor
  · unfold get_realm
    rw [h]
  · unfold get_realm
    rw [h]
    cases hemp : env.realm_group_is_empty (get_local_path env cfg entry.realm_id) <;>
      simp [hemp]

/-- Witness for C4 at a registry holding one entry whose realm has a
non-empty schema. -/
theorem claim_C4_witness :
    get_realm envW cfgW stateW 0 =
      (.ok (if envW.realm_group_is_empty (get_local_path envW cfgW entryW.realm_id)
            then none
            else some { path := get_local_path envW cfgW entryW.realm_id,
                        automatic_change_notifications := false,
                        cache := false,
                        sync_server_url := get_server_url envW cfgW entryW.realm_name,
                        sync_user_token := cfgW.access_token }), stateW) ∧
    ((get_realm envW cfgW stateW 0).1 = .ok none ↔
       envW.realm_group_is_empty (get_local_path envW cfgW entryW.realm_id) = true) :=
  claim_C4 envW cfgW stateW 0 entryW rfl

/-- C5: `on_admin_change` on a snapshot with an empty schema returns
successfully without touching the state; on a non-empty schema missing the
`RealmFile` table it fails with SchemaViolation (1); with the table present
but the `id` or `path` column absent it fails with SchemaViolation (2) — in
all three cases with no state change and no callback invocation. -/
theorem claim_C5 (env : Env) (cfg : NCfg) (snap : AdminSnapshot) (σ : NState) :
    (snap.group_is_empty = true →
       on_admin_change env cfg snap σ = ⟨.ok (), σ, []⟩) ∧
    (snap.group_is_empty = false → snap.has_realmfile_table = false →
       on_admin_change env cfg snap σ = ⟨.error .schemaViolation1, σ, []⟩) ∧
    (snap.group_is_empty = false → snap.has_realmfile_table = true →
       (snap.has_id_col = false ∨ snap.has_path_col = false) →
       on_admin_change env cfg snap σ = ⟨.error .schemaViolation2, σ, []⟩) := by
  refine ⟨fun h1 => ?_, fun h1 h2 => ?_, fun h1 h2 h3 => ?_⟩
  · simp [on_admin_change, h1]
  · simp [on_admin_change, h1, h2]
  · rcases h3 with h3 | h3 <;> simp [on_admin_change, h1, h2, h3]

/-- Witness for C5: an empty-schema snapshot, a snapshot without the
`RealmFile` table, and a snapshot whose `path` column is missing. -/
theorem claim_C5_witness :
    on_admin_change envW cfgW ⟨true, false, false, false, []⟩ initState =
      ⟨.ok (), initState, []⟩ ∧
    on_admin_change envW cfgW ⟨false, false, false, false, []⟩ initState =
      ⟨.error .schemaViolation1, initState, []⟩ ∧
    on_admin_change envW cfgW ⟨false, true, true, false, []⟩ initState =
      ⟨.error .schemaViolation2, initState, []⟩ :=
  ⟨(claim_C5 envW cfgW ⟨true, false, false, false, []⟩ initState).1 rfl,
   (claim_C5 envW cfgW ⟨false, false, false, false, []⟩ initState).2.1 rfl rfl,
   (claim_C5 envW cfgW ⟨false, true, true, false, []⟩ initState).2.2 rfl rfl (Or.inr rfl)⟩

/-- C9: `get_realm_name` and `get_realm` are observationally pure with respect
to the controller state: for every `listen_ident`, known or unknown, the
post-state (every member field: `m_known_realms`, `m_listen_entries`,
`m_next_listen_ident`) equals the pre-state. -/
theorem claim_C9 (env : Env) (cfg : NCfg) (σ : NState) (ident : Nat) :
    (get_realm_name σ ident).2 = σ ∧ (get_realm env cfg σ ident).2 = σ :=
  ⟨get_realm_name_state σ ident, get_realm_state env cfg σ ident⟩

/-! ## Set and map lemmas -/

lemma mem_setInsert {α : Type} [DecidableEq α] (s : List α) (c a : α) :
    a ∈ setInsert s c ↔ a = c ∨ a ∈ s := by
  unfold setInsert
  by_cases h : c ∈ s
  · rw [if_pos h]
    constructor
    · exact Or.inr
    · rintro (rfl | hm)
      · exact h
      · exact hm
  · rw [if_neg h]
    exact List.mem_cons

lemma setInsert_of_not_mem {α : Type} [DecidableEq α] {s : List α} {c : α}
    (h : c ∉ s) : setInsert s c = c :: s := by
  simp [setInsert, h]

lemma mapFind_eq_none_iff (m : List (Nat × ListenEntry)) (k : Nat) :
    mapFind m k = none ↔ k ∉ m.map Prod.fst := by
  induction m with
  | nil => simp [mapFind]
  | cons pr rest ih =>
    obtain ⟨k', v⟩ := pr
    by_cases hk : k' = k
    · subst hk
      simp [mapFind]
    · simp [mapFind, hk, ih, Ne.symm hk]

lemma mapFind_mapInsert_self {m : List (Nat × ListenEntry)} {k : Nat}
    (v : ListenEntry) (h : mapFind m k = none) :
    mapFind (mapInsert m k v) k = some v := by
  simp [mapInsert, h, mapFind]

lemma mapFind_mapInsert_of_find {m : List (Nat × ListenEntry)} {k' : Nat}
    {v' : ListenEntry} (k : Nat) (v : ListenEntry)
    (h : mapFind m k' = some v') :
    mapFind (mapInsert m k v) k' = some v' := by
  unfold mapInsert
  cases hm : mapFind m k with
  | some w => exact h
  | none =>
    have hne : k ≠ k' := by
      rintro rfl
      rw [hm] at h
      exact Option.noConfusion h
    simp [mapFind, hne, h]

lemma keys_mapInsert_nodup {m : List (Nat × ListenEntry)} (k : Nat)
    (v : ListenEntry) (h : (m.map Prod.fst).Nodup) :
    ((mapInsert m k v).map Prod.fst).Nodup := by
  unfold mapInsert
  cases hm : mapFind m k with
  | some w => exact h
  | none =>
    have : k ∉ m.map Prod.fst := (mapFind_eq_none_iff m k).mp hm
    simpa [this] using h

/-! ## processRow case lemmas -/

/-- The state produced by processing an accepted fresh row. -/
def acceptState (env : Env) (cfg : NCfg) (σ : NState) (row : AdminRow) : NState :=
  { known_realms := row.id :: σ.known_realms,
    listen_entries := mapInsert σ.listen_entries σ.next_listen_ident
      ⟨row.id, row.path,
        ⟨get_local_path env cfg row.id, get_server_url env cfg row.path,
         cfg.access_token, σ.next_listen_ident⟩⟩,
    next_listen_ident := σ.next_listen_ident + 1 }

/-- The trace produced by processing an accepted fresh row. -/
def acceptTrace (env : Env) (cfg : NCfg) (σ : NState) (row : AdminRow) : List Event :=
  [.filterCall row.id row.path,
   .sessionOpen σ.next_listen_ident (get_local_path env cfg row.id)
     (get_server_url env cfg row.path),
   .regularChange σ.next_listen_ident]

lemma processRow_skip {env : Env} {cfg : NCfg} {σ : NState} {row : AdminRow}
    (h : row.id ∈ σ.known_realms) :
    processRow env cfg σ row = ⟨.ok (), σ, []⟩ := by
  simp [processRow, h]

lemma processRow_filterThrew {env : Env} {cfg : NCfg} {σ : NState} {row : AdminRow}
    (hfresh : row.id ∉ σ.known_realms) (hf : env.filter_res row.path = none) :
    processRow env cfg σ row =
      ⟨.error .filterThrew, σ, [.filterCall row.id row.path]⟩ := by
  simp [processRow, hfresh, hf, setInsert_of_not_mem hfresh, List.erase_cons_head]

lemma processRow_rejected {env : Env} {cfg : NCfg} {σ : NState} {row : AdminRow}
    (hfresh : row.id ∉ σ.known_realms) (hf : env.filter_res row.path = some false) :
    processRow env cfg σ row =
      ⟨.ok (), { σ with known_realms := row.id :: σ.known_realms },
        [.filterCall row.id row.path]⟩ := by
  simp [processRow, hfresh, hf, setInsert_of_not_mem hfresh]

lemma processRow_sessionFail {env : Env} {cfg : NCfg} {σ : NState} {row : AdminRow}
    (hfresh : row.id ∉ σ.known_realms) (hf : env.filter_res row.path = some true)
    (hs : env.session_fails (get_local_path env cfg row.id)
            (get_server_url env cfg row.path) = true) :
    processRow env cfg σ row =
      ⟨.error .sessionOpenFailed, σ, [.filterCall row.id row.path]⟩ := by
  simp [processRow, hfresh, hf, hs, setInsert_of_not_mem hfresh, List.erase_cons_head]

lemma processRow_emplaceFail {env : Env} {cfg : NCfg} {σ : NState} {row : AdminRow}
    (hfresh : row.id ∉ σ.known_realms) (hf : env.filter_res row.path = some true)
    (hs : env.session_fails (get_local_path env cfg row.id)
            (get_server_url env cfg row.path) = false)
    (he : env.emplace_fails σ.next_listen_ident = true) :
    processRow env cfg σ row =
      ⟨.error .emplaceFailed, σ,
        [.filterCall row.id row.path,
         .sessionOpen σ.next_listen_ident (get_local_path env cfg row.id)
           (get_server_url env cfg row.path)]⟩ := by
  simp [processRow, hfresh, hf, hs, he, setInsert_of_not_mem hfresh, List.erase_cons_head]

lemma processRow_accept_notify {env : Env} {cfg : NCfg} {σ : NState} {row : AdminRow}
    (hfresh : row.id ∉ σ.known_realms) (hf : env.filter_res row.path = some true)
    (hs : env.session_fails (get_local_path env cfg row.id)
            (get_server_url env cfg row.path) = false)
    (he : env.emplace_fails σ.next_listen_ident = false)
    (hn : env.notify_fails σ.next_listen_ident = true) :
    processRow env cfg σ row =
      ⟨.error .notifyThrew, acceptState env cfg σ row, acceptTrace env cfg σ row⟩ := by
  simp [processRow, hfresh, hf, hs, he, hn, setInsert_of_not_mem hfresh,
    acceptState, acceptTrace]

lemma processRow_accept_ok {env : Env} {cfg : NCfg} {σ : NState} {row : AdminRow}
    (hfresh : row.id ∉ σ.known_realms) (hf : env.filter_res row.path = some true)
    (hs : env.session_fails (get_local_path env cfg row.id)
            (get_server_url env cfg row.path) = false)
    (he : env.emplace_fails σ.next_listen_ident = false)
    (hn : env.notify_fails σ.next_listen_ident = false) :
    processRow env cfg σ row =
      ⟨.ok (), acceptState env cfg σ row, acceptTrace env cfg σ row⟩ := by
  simp [processRow, hfresh, hf, hs, he, hn, setInsert_of_not_mem hfresh,
    acceptState, acceptTrace]

/-- Exhaustive case analysis on `processRow`: the seven branches of the loop
body. -/
lemma processRow_cases {env : Env} {cfg : NCfg} {σ : NState} {row : AdminRow}
    (P : StepResult → Prop)
    (h1 : row.id ∈ σ.known_realms → P ⟨.ok (), σ, []⟩)
    (h2 : row.id ∉ σ.known_realms → env.filter_res row.path = none →
      P ⟨.error .filterThrew, σ, [.filterCall row.id row.path]⟩)
    (h3 : row.id ∉ σ.known_realms → env.filter_res row.path = some false →
      P ⟨.ok (), { σ with known_realms := row.id :: σ.known_realms },
          [.filterCall row.id row.path]⟩)
    (h4 : row.id ∉ σ.known_realms → env.filter_res row.path = some true →
      env.session_fails (get_local_path env cfg row.id)
        (get_server_url env cfg row.path) = true →
      P ⟨.error .sessionOpenFailed, σ, [.filterCall row.id row.path]⟩)
    (h5 : row.id ∉ σ.known_realms → env.filter_res row.path = some true →
      env.session_fails (get_local_path env cfg row.id)
        (get_server_url env cfg row.path) = false →
      env.emplace_fails σ.next_listen_ident = true →
      P ⟨.error .emplaceFailed, σ,
          [.filterCall row.id row.path,
           .sessionOpen σ.next_listen_ident (get_local_path env cfg row.id)
             (get_server_url env cfg row.path)]⟩)
    (h6 : row.id ∉ σ.known_realms → env.filter_res row.path = some true →
      env.session_fails (get_local_path env cfg row.id)
        (get_server_url env cfg row.path) = false →
      env.emplace_fails σ.next_listen_ident = false →
      env.notify_fails σ.next_listen_ident = true →
      P ⟨.error .notifyThrew, acceptState env cfg σ row, acceptTrace env cfg σ row⟩)
    (h7 : row.id ∉ σ.known_realms → env.filter_res row.path = some true →
      env.session_fails (get_local_path env cfg row.id)
        (get_server_url env cfg row.path) = false →
      env.emplace_fails σ.next_listen_ident = false →
      env.notify_fails σ.next_listen_ident = false →
      P ⟨.ok (), acceptState env cfg σ row, acceptTrace env cfg σ row⟩) :
    P (processRow env cfg σ row) := by
  by_cases hfresh : row.id ∈ σ.known_realms
  · rw [processRow_skip hfresh]
    exact h1 hfresh
  · cases hf : env.filter_res row.path with
    | none =>
      rw [processRow_filterThrew hfresh hf]
      exact h2 hfresh hf
    | some b =>
      cases b with
      | false =>
        rw [processRow_rejected hfresh hf]
        exact h3 hfresh hf
      | true =>
        cases hs : env.session_fails (get_local_path env cfg row.id)
            (get_server_url env cfg row.path) with
        | true =>
          rw [processRow_sessionFail hfresh hf hs]
          exact h4 hfresh hf hs
        | false =>
          cases he : env.emplace_fails σ.next_listen_ident with
          | true =>
            rw [processRow_emplaceFail hfresh hf hs he]
            exact h5 hfresh hf hs he
          | false =>
            cases hn : env.notify_fails σ.next_listen_ident with
            | true =>
              rw [processRow_accept_notify hfresh hf hs he hn]
              exact h6 hfresh hf hs he hn
            | false =>
              rw [processRow_accept_ok hfresh hf hs he hn]
              exact h7 hfresh hf hs he hn

/-! ## processRow preservation lemmas -/

lemma mem_mapInsert {m : List (Nat × ListenEntry)} {k : Nat} {v : ListenEntry}
    {pr : Nat × ListenEntry} (h : pr ∈ mapInsert m k v) :
    pr = (k, v) ∨ pr ∈ m := by
  unfold mapInsert at h
  cases hm : mapFind m k with
  | some w =>
    rw [hm] at h
    exact Or.inr h
  | none =>
    rw [hm] at h
    rcases List.mem_cons.mp h with h | h
    · exact Or.inl h
    · exact Or.inr h

/-- Registry bindings survive a row step, whatever its outcome. -/
lemma processRow_bindings (env : Env) (cfg : NCfg) (σ : NState) (row : AdminRow)
    (k : Nat) (v : ListenEntry) (h : mapFind σ.listen_entries k = some v) :
    mapFind (processRow env cfg σ row).st.listen_entries k = some v := by
  refine processRow_cases (fun r => mapFind r.st.listen_entries k = some v)
    ?_ ?_ ?_ ?_ ?_ ?_ ?_ <;> intros <;>
    first
      | exact h
      | exact mapFind_mapInsert_of_find _ _ h

/-- The known-ids set never loses a pre-existing id in a row step. -/
lemma processRow_known_mono (env : Env) (cfg : NCfg) (σ : NState) (row : AdminRow)
    (x : String) (h : x ∈ σ.known_realms) :
    x ∈ (processRow env cfg σ row).st.known_realms := by
  refine processRow_cases (fun r => x ∈ r.st.known_realms) ?_ ?_ ?_ ?_ ?_ ?_ ?_ <;>
    intros <;>
    first
      | exact h
      | exact List.mem_cons_of_mem _ h

/-- Registry keys stay duplicate-free across a row step. -/
lemma processRow_keys_nodup (env : Env) (cfg : NCfg) (σ : NState) (row : AdminRow)
    (h : (σ.listen_entries.map Prod.fst).Nodup) :
    ((processRow env cfg σ row).st.listen_entries.map Prod.fst).Nodup := by
  refine processRow_cases (fun r => (r.st.listen_entries.map Prod.fst).Nodup)
    ?_ ?_ ?_ ?_ ?_ ?_ ?_ <;> intros <;>
    first
      | exact h
      | exact keys_mapInsert_nodup _ _ h

/-- Invariant: every registered `listen_ident` is below `m_next_listen_ident`. -/
def identInv (σ : NState) : Prop :=
  ∀ pr ∈ σ.listen_entries, pr.1 < σ.next_listen_ident

lemma processRow_identInv (env : Env) (cfg : NCfg) (σ : NState) (row : AdminRow)
    (h : identInv σ) : identInv (processRow env cfg σ row).st := by
  refine processRow_cases (fun r => identInv r.st) ?_ ?_ ?_ ?_ ?_ ?_ ?_ <;> intros <;>
    try exact h
  all_goals
    intro pr hpr
    rcases mem_mapInsert hpr with heq | hpr'
    · subst heq
      exact Nat.lt_succ_self _
    · exact Nat.lt_succ_of_lt (h pr hpr')

/-- What a failing row step guarantees: the row was fresh; unless the failure
came from `on_regular_change` (which runs outside the `try` block), the state
is exactly the pre-state — in particular the freshly inserted id has been
erased again; registry bindings and pre-existing known ids always survive. -/
lemma processRow_error_spec {env : Env} {cfg : NCfg} {σ : NState} {row : AdminRow}
    {e : Err} {σf : NState} {tr : List Event}
    (h : processRow env cfg σ row = ⟨.error e, σf, tr⟩) :
    row.id ∉ σ.known_realms ∧
    (e ≠ .notifyThrew → σf = σ) ∧
    (∀ k v, mapFind σ.listen_entries k = some v →
       mapFind σf.listen_entries k = some v) ∧
    (∀ x ∈ σ.known_realms, x ∈ σf.known_realms) := by
  refine processRow_cases
    (fun r => r = ⟨Except.error e, σf, tr⟩ →
      row.id ∉ σ.known_realms ∧
      (e ≠ Err.notifyThrew → σf = σ) ∧
      (∀ k v, mapFind σ.listen_entries k = some v →
         mapFind σf.listen_entries k = some v) ∧
      (∀ x ∈ σ.known_realms, x ∈ σf.known_realms))
    ?_ ?_ ?_ ?_ ?_ ?_ ?_ h
  · intro _ heq
    simp at heq
  · intro hfresh _ heq
    injection heq with he hst htr
    injection he with he'
    subst hst
    exact ⟨hfresh, fun _ => rfl, fun k v hkv => hkv, fun x hx => hx⟩
  · intro _ _ heq
    simp at heq
  · intro hfresh _ _ heq
    injection heq with he hst htr
    injection he with he'
    subst hst
    exact ⟨hfresh, fun _ => rfl, fun k v hkv => hkv, fun x hx => hx⟩
  · intro hfresh _ _ _ heq
    injection heq with he hst htr
    injection he with he'
    subst hst
    exact ⟨hfresh, fun _ => rfl, fun k v hkv => hkv, fun x hx => hx⟩
  · intro hfresh _ _ _ _ heq
    injection heq with he hst htr
    injection he with he'
    subst he'
    subst hst
    refine ⟨hfresh, fun hne => absurd rfl hne, ?_, ?_⟩
    · exact fun k v hkv => mapFind_mapInsert_of_find _ _ hkv
    · exact fun x hx => List.mem_cons_of_mem _ hx
  · intro _ _ _ _ _ heq
    simp at heq

/-- Sequencing equation: a successful row step continues with the rest. -/
lemma processRows_cons_ok {env : Env} {cfg : NCfg} {σ σ1 : NState} {row : AdminRow}
    {rest : List AdminRow} {t1 : List Event}
    (hr : processRow env cfg σ row = ⟨.ok (), σ1, t1⟩) :
    processRows env cfg σ (row :: rest) =
      ⟨(processRows env cfg σ1 rest).res, (processRows env cfg σ1 rest).st,
        t1 ++ (processRows env cfg σ1 rest).tr⟩ := by
  simp only [processRows, hr]

/-- Sequencing equation: a failing row step aborts the remainder of the loop. -/
lemma processRows_cons_error {env : Env} {cfg : NCfg} {σ σ1 : NState}
    {row : AdminRow} {rest : List AdminRow} {e : Err} {t1 : List Event}
    (hr : processRow env cfg σ row = ⟨.error e, σ1, t1⟩) :
    processRows env cfg σ (row :: rest) = ⟨.error e, σ1, t1⟩ := by
  simp only [processRows, hr]

lemma processRows_bindings (env : Env) (cfg : NCfg) (rows : List AdminRow)
    (σ : NState) (k : Nat) (v : ListenEntry)
    (h : mapFind σ.listen_entries k = some v) :
    mapFind (processRows env cfg σ rows).st.listen_entries k = some v := by
  induction rows generalizing σ with
  | nil => exact h
  | cons row rest ih =>
    cases hres : (processRow env cfg σ row).res with
    | error e =>
      simp only [processRows, hres]
      exact processRow_bindings env cfg σ row k v h
    | ok u =>
      cases u
      simp only [processRows, hres]
      exact ih _ (processRow_bindings env cfg σ row k v h)

lemma processRows_known_mono (env : Env) (cfg : NCfg) (rows : List AdminRow)
    (σ : NState) (x : String) (h : x ∈ σ.known_realms) :
    x ∈ (processRows env cfg σ rows).st.known_realms := by
  induction rows generalizing σ with
  | nil => exact h
  | cons row rest ih =>
    cases hres : (processRow env cfg σ row).res with
    | error e =>
      simp only [processRows, hres]
      exact processRow_known_mono env cfg σ row x h
    | ok u =>
      cases u
      simp only [processRows, hres]
      exact ih _ (processRow_known_mono env cfg σ row x h)

lemma processRows_keys_nodup (env : Env) (cfg : NCfg) (rows : List AdminRow)
    (σ : NState) (h : (σ.listen_entries.map Prod.fst).Nodup) :
    ((processRows env cfg σ rows).st.listen_entries.map Prod.fst).Nodup := by
  induction rows generalizing σ with
  | nil => exact h
  | cons row rest ih =>
    cases hres : (processRow env cfg σ row).res with
    | error e =>
      simp only [processRows, hres]
      exact processRow_keys_nodup env cfg σ row h
    | ok u =>
      cases u
      simp only [processRows, hres]
      exact ih _ (processRow_keys_nodup env cfg σ row h)

lemma processRows_identInv (env : Env) (cfg : NCfg) (rows : List AdminRow)
    (σ : NState) (h : identInv σ) :
    identInv (processRows env cfg σ rows).st := by
  induction rows generalizing σ with
  | nil => exact h
  | cons row rest ih =>
    cases hres : (processRow env cfg σ row).res with
    | error e =>
      simp only [processRows, hres]
      exact processRow_identInv env cfg σ row h
    | ok u =>
      cases u
      simp only [processRows, hres]
      exact ih _ (processRow_identInv env cfg σ row h)

/-- Splitting a row list at a successfully processed front segment. -/
lemma processRows_append_ok (env : Env) (cfg : NCfg) (l2 : List AdminRow) :
    ∀ (l1 : List AdminRow) (σ σ1 : NState) (t1 : List Event),
      processRows env cfg σ l1 = ⟨.ok (), σ1, t1⟩ →
      processRows env cfg σ (l1 ++ l2) =
        ⟨(processRows env cfg σ1 l2).res, (processRows env cfg σ1 l2).st,
          t1 ++ (processRows env cfg σ1 l2).tr⟩ := by
  intro l1
  induction l1 with
  | nil =>
    intro σ σ1 t1 h
    injection h with hres hst htr
    subst hst
    subst htr
    simp [processRows]
  | cons row rest ih =>
    intro σ σ1 t1 h
    cases hres : (processRow env cfg σ row).res with
    | error e =>
      rw [processRows_cons_error
        (show processRow env cfg σ row =
          ⟨.error e, (processRow env cfg σ row).st, (processRow env cfg σ row).tr⟩
          from by rw [← hres])] at h
      simp at h
    | ok u =>
      cases u
      have hr1 : processRow env cfg σ row =
          ⟨.ok (), (processRow env cfg σ row).st, (processRow env cfg σ row).tr⟩ := by
        rw [← hres]
      rw [processRows_cons_ok hr1] at h
      injection h with hres2 hst2 htr2
      have h2 : processRows env cfg (processRow env cfg σ row).st rest =
          ⟨.ok (), σ1, (processRows env cfg (processRow env cfg σ row).st rest).tr⟩ := by
        rw [← hres2, ← hst2]
      rw [List.cons_append, processRows_cons_ok hr1, ih _ _ _ h2]
      subst htr2
      simp [List.append_assoc]

/-! ## on_admin_change and runCycles preservation lemmas -/

lemma on_admin_change_bindings (env : Env) (cfg : NCfg) (snap : AdminSnapshot)
    (σ : NState) (k : Nat) (v : ListenEntry)
    (h : mapFind σ.listen_entries k = some v) :
    mapFind (on_admin_change env cfg snap σ).st.listen_entries k = some v := by
  unfold on_admin_change
  split_ifs with h1 h2 h3
  · exact h
  · exact h
  · exact h
  · exact processRows_bindings env cfg snap.rows σ k v h

lemma on_admin_change_known_mono (env : Env) (cfg : NCfg) (snap : AdminSnapshot)
    (σ : NState) (x : String) (h : x ∈ σ.known_realms) :
    x ∈ (on_admin_change env cfg snap σ).st.known_realms := by
  unfold on_admin_change
  split_ifs with h1 h2 h3
  · exact h
  · exact h
  · exact h
  · exact processRows_known_mono env cfg snap.rows σ x h

lemma on_admin_change_keys_nodup (env : Env) (cfg : NCfg) (snap : AdminSnapshot)
    (σ : NState) (h : (σ.listen_entries.map Prod.fst).Nodup) :
    ((on_admin_change env cfg snap σ).st.listen_entries.map Prod.fst).Nodup := by
  unfold on_admin_change
  split_ifs with h1 h2 h3
  · exact h
  · exact h
  · exact h
  · exact processRows_keys_nodup env cfg snap.rows σ h

lemma on_admin_change_identInv (env : Env) (cfg : NCfg) (snap : AdminSnapshot)
    (σ : NState) (h : identInv σ) :
    identInv (on_admin_change env cfg snap σ).st := by
  unfold on_admin_change
  split_ifs with h1 h2 h3
  · exact h
  · exact h
  · exact h
  · exact processRows_identInv env cfg snap.rows σ h

lemma runCycles_bindings (env : Env) (cfg : NCfg) (snaps : List AdminSnapshot) :
    ∀ (σ : NState) (k : Nat) (v : ListenEntry),
      mapFind σ.listen_entries k = some v →
      mapFind (runCycles env cfg σ snaps).st.listen_entries k = some v := by
  induction snaps with
  | nil => exact fun σ k v h => h
  | cons snap rest ih =>
    intro σ k v h
    simp only [runCycles]
    exact ih _ _ _ (on_admin_change_bindings env cfg snap σ k v h)

lemma runCycles_keys_nodup (env : Env) (cfg : NCfg) (snaps : List AdminSnapshot) :
    ∀ σ : NState, (σ.listen_entries.map Prod.fst).Nodup →
      ((runCycles env cfg σ snaps).st.listen_entries.map Prod.fst).Nodup := by
  induction snaps with
  | nil => exact fun σ h => h
  | cons snap rest ih =>
    intro σ h
    simp only [runCycles]
    exact ih _ (on_admin_change_keys_nodup env cfg snap σ h)

lemma runCycles_append_st (env : Env) (cfg : NCfg) (l2 : List AdminSnapshot) :
    ∀ (l1 : List AdminSnapshot) (σ : NState),
      (runCycles env cfg σ (l1 ++ l2)).st =
        (runCycles env cfg (runCycles env cfg σ l1).st l2).st := by
  intro l1
  induction l1 with
  | nil => intro σ; rfl
  | cons snap rest ih =>
    intro σ
    simp only [List.cons_append, runCycles]
    exact ih _

/-! ## Registry invariant (C10) -/

/-- The registry invariant: every registered entry's container id is a member
of the known-ids set, and no two entries share a container id. -/
def registryInv (σ : NState) : Prop :=
  (∀ pr ∈ σ.listen_entries, pr.2.realm_id ∈ σ.known_realms) ∧
  (σ.listen_entries.map (fun pr => pr.2.realm_id)).Nodup

lemma processRow_registryInv (env : Env) (cfg : NCfg) (σ : NState) (row : AdminRow)
    (h : registryInv σ) : registryInv (processRow env cfg σ row).st := by
  obtain ⟨hmem, hnd⟩ := h
  refine processRow_cases (fun r => registryInv r.st) ?_ ?_ ?_ ?_ ?_ ?_ ?_
  · intro _
    exact ⟨hmem, hnd⟩
  · intro _ _
    exact ⟨hmem, hnd⟩
  · intro _ _
    exact ⟨fun pr hpr => List.mem_cons_of_mem _ (hmem pr hpr), hnd⟩
  · intro _ _ _
    exact ⟨hmem, hnd⟩
  · intro _ _ _ _
    exact ⟨hmem, hnd⟩
  all_goals
    intro hfresh _ _ _ _
    constructor
    · intro pr hpr
      rcases mem_mapInsert hpr with heq | hpr'
      · subst heq
        exact List.mem_cons_self _ _
      · exact List.mem_cons_of_mem _ (hmem pr hpr')
    · show ((mapInsert σ.listen_entries σ.next_listen_ident _).map
        (fun pr => pr.2.realm_id)).Nodup
      unfold mapInsert
      cases hm : mapFind σ.listen_entries σ.next_listen_ident with
      | some w => exact hnd
      | none =>
        refine List.nodup_cons.mpr ⟨?_, hnd⟩
        intro hcontra
        obtain ⟨pr, hpr, hid⟩ := List.mem_map.mp hcontra
        have hid' : pr.2.realm_id = row.id := hid
        exact hfresh (hid' ▸ hmem pr hpr)

lemma processRows_registryInv (env : Env) (cfg : NCfg) (rows : List AdminRow)
    (σ : NState) (h : registryInv σ) :
    registryInv (processRows env cfg σ rows).st := by
  induction rows generalizing σ with
  | nil => exact h
  | cons row rest ih =>
    cases hres : (processRow env cfg σ row).res with
    | error e =>
      simp only [processRows, hres]
      exact processRow_registryInv env cfg σ row h
    | ok u =>
      cases u
      simp only [processRows, hres]
      exact ih _ (processRow_registryInv env cfg σ row h)

/-! ## Claims C2, C6, C7, C10 -/

/-- C2: if any step of processing an accepted container inside the `try` block
fails (any error other than `notifyThrew`, which models the container-observed
callback itself throwing outside the `try` block), then the failing row's id
is removed from the known-ids set (the state is exactly the state reached
after the earlier rows), the failure propagates as the result of
`on_admin_change`, no later row of the cycle contributes state or events, the
`ListenEntry`s created for earlier rows of the same cycle remain in the
registry, and in every case the known-ids set retains all pre-existing ids. -/
theorem claim_C2 (env : Env) (cfg : NCfg) (snap : AdminSnapshot) (σ σi σf : NState)
    (pre post : List AdminRow) (row : AdminRow) (prefTr failTr : List Event) (e : Err)
    (hrows : snap.rows = pre ++ row :: post)
    (hempty : snap.group_is_empty = false)
    (htable : snap.has_realmfile_table = true)
    (hidc : snap.has_id_col = true)
    (hpathc : snap.has_path_col = true)
    (hpre : processRows env cfg σ pre = ⟨.ok (), σi, prefTr⟩)
    (hfail : processRow env cfg σi row = ⟨.error e, σf, failTr⟩) :
    on_admin_change env cfg snap σ = ⟨.error e, σf, prefTr ++ failTr⟩ ∧
    (e ≠ .notifyThrew → σf = σi ∧ row.id ∉ σf.known_realms) ∧
    (∀ k v, mapFind σi.listen_entries k = some v →
       mapFind σf.listen_entries k = some v) ∧
    (∀ x ∈ σ.known_realms, x ∈ σf.known_realms) := by
  obtain ⟨hfresh, hrestore, hbind, hknownf⟩ := processRow_error_spec hfail
  refine ⟨?_, ?_, hbind, ?_⟩
  · have hoc : on_admin_change env cfg snap σ = processRows env cfg σ snap.rows := by
      simp [on_admin_change, hempty, htable, hidc, hpathc]
    rw [hoc, hrows, processRows_append_ok env cfg _ pre σ σi prefTr hpre,
      processRows_cons_error hfail]
  · intro hne
    have hσ : σf = σi := hrestore hne
    subst hσ
    exact ⟨rfl, hfresh⟩
  · intro x hx
    have hmono := processRows_known_mono env cfg pre σ x hx
    rw [hpre] at hmono
    exact hknownf x hmono

def rowAW : AdminRow := ⟨"a", "/a"⟩

def rowBW : AdminRow := ⟨"b", "/b"⟩

def snapABW : AdminSnapshot := ⟨false, true, true, true, [rowAW, rowBW]⟩

def snapAW : AdminSnapshot := ⟨false, true, true, true, [rowAW]⟩

/-- Like `envW`, but opening the session for container "b" fails. -/
def envFailW : Env :=
  { envW with session_fails := fun lp _ => lp == "/root/realms/b.realm" }

def prefTrW : List Event :=
  [.filterCall "a" "/a", .sessionOpen 0 "/root/realms/a.realm" "http://srv/a",
   .regularChange 0]

/-- Witness for C2: two rows; row "a" is processed successfully, opening the
session for row "b" fails. -/
theorem claim_C2_witness :
    on_admin_change envFailW cfgW snapABW initState =
      ⟨.error .sessionOpenFailed, stateW, prefTrW ++ [.filterCall "b" "/b"]⟩ ∧
    (Err.sessionOpenFailed ≠ Err.notifyThrew →
       stateW = stateW ∧ rowBW.id ∉ stateW.known_realms) ∧
    (∀ k v, mapFind stateW.listen_entries k = some v →
       mapFind stateW.listen_entries k = some v) ∧
    (∀ x ∈ initState.known_realms, x ∈ stateW.known_realms) :=
  claim_C2 envFailW cfgW snapABW initState stateW stateW [rowAW] [] rowBW prefTrW
    [.filterCall "b" "/b"] .sessionOpenFailed rfl rfl rfl rfl rfl rfl rfl

/-- C6: across every sequence of `on_admin_change` invocations on one
controller started from the initial state, every binding of a `listen_ident`
to a `ListenEntry` present after any prefix of the sequence is still present,
unchanged, after the whole sequence, and the registry's idents are pairwise
distinct — each ident is bound to at most one entry and is never assigned
again. -/
theorem claim_C6 (env : Env) (cfg : NCfg) (snaps : List AdminSnapshot) (n : Nat)
    (k : Nat) (v : ListenEntry)
    (hpre : mapFind (runCycles env cfg initState (snaps.take n)).st.listen_entries k =
      some v) :
    mapFind (runCycles env cfg initState snaps).st.listen_entries k = some v ∧
    ((runCycles env cfg initState snaps).st.listen_entries.map Prod.fst).Nodup := by
  constructor
  · conv_lhs => rw [← List.take_append_drop n snaps]
    rw [runCycles_append_st]
    exact runCycles_bindings env cfg _ _ k v hpre
  · exact runCycles_keys_nodup env cfg snaps initState List.nodup_nil

/-- Witness for C6: one cycle discovering container "a"; its binding at ident
0 persists. -/
theorem claim_C6_witness :
    mapFind (runCycles envW cfgW initState [snapAW]).st.listen_entries 0 =
      some entryW ∧
    ((runCycles envW cfgW initState [snapAW]).st.listen_entries.map Prod.fst).Nodup :=
  claim_C6 envW cfgW [snapAW] 1 0 entryW (by decide)

/-- C7: for a fresh container accepted by the filter whose processing
succeeds, the row step produces exactly the filter call, the session open,
and — last, i.e. after the `ListenEntry` has been inserted — the invocation
of the target's container-observed callback (`on_regular_change`) with the
newly allocated `listen_ident`; the entry is registered under that ident; and
within `on_admin_change` all these events precede every event of subsequent
rows.  No commit of the new session is required for the callback. -/
theorem claim_C7 (env : Env) (cfg : NCfg) (σ : NState) (row : AdminRow)
    (rest : List AdminRow)
    (hident : identInv σ)
    (hfresh : row.id ∉ σ.known_realms)
    (hacc : env.filter_res row.path = some true)
    (hok : (processRow env cfg σ row).res = .ok ()) :
    processRow env cfg σ row =
      ⟨.ok (), acceptState env cfg σ row, acceptTrace env cfg σ row⟩ ∧
    (acceptTrace env cfg σ row).getLast? =
      some (.regularChange σ.next_listen_ident) ∧
    mapFind (acceptState env cfg σ row).listen_entries σ.next_listen_ident =
      some ⟨row.id, row.path,
        ⟨get_local_path env cfg row.id, get_server_url env cfg row.path,
         cfg.access_token, σ.next_listen_ident⟩⟩ ∧
    (processRows env cfg σ (row :: rest)).tr =
      acceptTrace env cfg σ row ++
        (processRows env cfg (acceptState env cfg σ row) rest).tr := by
  have hs : env.session_fails (get_local_path env cfg row.id)
      (get_server_url env cfg row.path) = false := by
    cases hs' : env.session_fails (get_local_path env cfg row.id)
        (get_server_url env cfg row.path) with
    | false => rfl
    | true =>
      rw [processRow_sessionFail hfresh hacc hs'] at hok
      simp at hok
  have he : env.emplace_fails σ.next_listen_ident = false := by
    cases he' : env.emplace_fails σ.next_listen_ident with
    | false => rfl
    | true =>
      rw [processRow_emplaceFail hfresh hacc hs he'] at hok
      simp at hok
  have hn : env.notify_fails σ.next_listen_ident = false := by
    cases hn' : env.notify_fails σ.next_listen_ident with
    | false => rfl
    | true =>
      rw [processRow_accept_notify hfresh hacc hs he hn'] at hok
      simp at hok
  have hrow := processRow_accept_ok hfresh hacc hs he hn
  have hnone : mapFind σ.listen_entries σ.next_listen_ident = none := by
    refine (mapFind_eq_none_iff _ _).mpr ?_
    intro hmem
    obtain ⟨pr, hpr, hfst⟩ := List.mem_map.mp hmem
    exact absurd (hfst ▸ hident pr hpr) (lt_irrefl _)
  refine ⟨hrow, rfl, mapFind_mapInsert_self _ hnone, ?_⟩
  rw [processRows_cons_ok hrow]

/-- Witness for C7: the very first container, accepted by a filter that
accepts everything. -/
theorem claim_C7_witness :
    processRow envW cfgW initState rowAW =
      ⟨.ok (), acceptState envW cfgW initState rowAW,
        acceptTrace envW cfgW initState rowAW⟩ ∧
    (acceptTrace envW cfgW initState rowAW).getLast? =
      some (.regularChange initState.next_listen_ident) ∧
    mapFind (acceptState envW cfgW initState rowAW).listen_entries
        initState.next_listen_ident =
      some ⟨rowAW.id, rowAW.path,
        ⟨get_local_path envW cfgW rowAW.id, get_server_url envW cfgW rowAW.path,
         cfgW.access_token, initState.next_listen_ident⟩⟩ ∧
    (processRows envW cfgW initState (rowAW :: [])).tr =
      acceptTrace envW cfgW initState rowAW ++
        (processRows envW cfgW (acceptState envW cfgW initState rowAW) []).tr :=
  claim_C7 envW cfgW initState rowAW []
    (fun pr hpr => absurd hpr (List.not_mem_nil pr))
    (by decide) rfl rfl

/-- C10: every operation — `on_admin_change` with any outcome, including its
failure paths, and both accessors — preserves the registry invariant that
each registered entry's container id belongs to the known-ids set and that no
two entries share a container id. -/
theorem claim_C10 (env : Env) (cfg : NCfg) (snap : AdminSnapshot) (σ : NState)
    (ident : Nat) (h : registryInv σ) :
    registryInv (on_admin_change env cfg snap σ).st ∧
    registryInv (get_realm_name σ ident).2 ∧
    registryInv (get_realm env cfg σ ident).2 := by
  refine ⟨?_, ?_, ?_⟩
  · unfold on_admin_change
    split_ifs with h1 h2 h3
    · exact h
    · exact h
    · exact h
    · exact processRows_registryInv env cfg snap.rows σ h
  · rw [get_realm_name_state]
    exact h
  · rw [get_realm_state]
    exact h

/-- Witness for C10 at a one-entry registry, on a cycle whose second row's
session open fails. -/
theorem claim_C10_witness :
    registryInv (on_admin_change envFailW cfgW snapABW stateW).st ∧
    registryInv (get_realm_name stateW 0).2 ∧
    registryInv (get_realm envFailW cfgW stateW 0).2 :=
  claim_C10 envFailW cfgW snapABW stateW 0
    ⟨by decide, by decide⟩

/-! ## Claim C8 (notification pipeline, modelled from the spec) -/

lemma setInsert_idem {α : Type} [DecidableEq α] (s : List α) (c : α) :
    setInsert (setInsert s c) c = setInsert s c := by
  have hc : c ∈ setInsert s c := (mem_setInsert s c c).mpr (Or.inl rfl)
  show (if c ∈ setInsert s c then setInsert s c else c :: setInsert s c) = setInsert s c
  rw [if_pos hc]

/-- While paused, any positive number of commits for one container buffers
exactly one pending notification and delivers nothing. -/
lemma commitN_paused (c : Nat) : ∀ (n : Nat) (p : Pipeline), p.paused = true →
    Pipeline.commitN (n + 1) p c =
      { paused := true, pending := setInsert p.pending c,
        deliveries := p.deliveries } := by
  intro n
  induction n with
  | zero =>
    intro p hp
    show p.commit c = _
    simp [Pipeline.commit, hp]
  | succ n ih =>
    intro p hp
    show Pipeline.commitN (n + 1) (p.commit c) c = _
    rw [ih (p.commit c) (by simp [Pipeline.commit, hp])]
    simp [Pipeline.commit, hp, setInsert_idem]

/-- C8 (spec-modelled, §4.4): for a tracked container with one prior delivered
notification and nothing pending, a commit strictly after `pause()` and before
`resume()` never invokes `realm_changed` (the delivery trace is unchanged,
however many commits occur while paused); `has_pending()` is true from the
first paused commit until `resume()`; `resume()` invokes `realm_changed`
exactly once for that container (its delivery count goes from 1 to 2); and
`has_pending()` is false immediately after `resume()`. -/
theorem claim_C8 (p : Pipeline) (c : Nat) (n : Nat)
    (hpend : p.pending = [])
    (hprior : p.deliveries.count c = 1) :
    (Pipeline.commitN (n + 1) p.pause c).deliveries = p.deliveries ∧
    (∀ k, k ≤ n → (Pipeline.commitN (k + 1) p.pause c).has_pending = true) ∧
    (Pipeline.commitN (n + 1) p.pause c).resume.deliveries = p.deliveries ++ [c] ∧
    (Pipeline.commitN (n + 1) p.pause c).resume.deliveries.count c = 2 ∧
    (Pipeline.commitN (n + 1) p.pause c).resume.has_pending = false := by
  have hpause : p.pause.paused = true := rfl
  have hstep : ∀ m : Nat, Pipeline.commitN (m + 1) p.pause c =
      { paused := true, pending := [c], deliveries := p.deliveries } := by
    intro m
    rw [commitN_paused c m p.pause hpause]
    simp [Pipeline.pause, hpend, setInsert]
  refine ⟨?_, ?_, ?_, ?_, ?_⟩
  · rw [hstep n]
  · intro k _
    rw [hstep k]
    rfl
  · rw [hstep n]
    rfl
  · rw [hstep n]
    show (p.deliveries ++ [c]).count c = 2
    rw [List.count_append, hprior]
    simp
  · rw [hstep n]
    rfl

/-- Witness for C8: one prior delivery for container 5, three commits while
paused, then resume. -/
theorem claim_C8_witness :
    (Pipeline.commitN (2 + 1) (Pipeline.pause ⟨false, [], [5]⟩) 5).deliveries = [5] ∧
    (∀ k, k ≤ 2 →
      (Pipeline.commitN (k + 1) (Pipeline.pause ⟨false, [], [5]⟩) 5).has_pending = true) ∧
    (Pipeline.commitN (2 + 1) (Pipeline.pause ⟨false, [], [5]⟩) 5).resume.deliveries =
      [5] ++ [5] ∧
    (Pipeline.commitN (2 + 1)
      (Pipeline.pause ⟨false, [], [5]⟩) 5).resume.deliveries.count 5 = 2 ∧
    (Pipeline.commitN (2 + 1)
      (Pipeline.pause ⟨false, [], [5]⟩) 5).resume.has_pending = false :=
  claim_C8 ⟨false, [], [5]⟩ 5 2 rfl rfl

/-! ## Claim C1: per-row and per-loop filter-call accounting -/

lemma processRow_ok_known {env : Env} {cfg : NCfg} {σ : NState} {row : AdminRow}
    (h : (processRow env cfg σ row).res = .ok ()) :
    (processRow env cfg σ row).st.known_realms = setInsert σ.known_realms row.id := by
  refine processRow_cases
    (fun r => r.res = .ok () → r.st.known_realms = setInsert σ.known_realms row.id)
    ?_ ?_ ?_ ?_ ?_ ?_ ?_ h
  · intro hmem _
    simp [setInsert, hmem]
  · intro _ _ habs
    simp at habs
  · intro hfresh _ _
    exact (setInsert_of_not_mem hfresh).symm
  · intro _ _ _ habs
    simp at habs
  · intro _ _ _ _ habs
    simp at habs
  · intro _ _ _ _ _ habs
    simp at habs
  · intro hfresh _ _ _ _ _
    exact (setInsert_of_not_mem hfresh).symm

lemma processRow_ok_count {env : Env} {cfg : NCfg} {σ : NState} {row : AdminRow}
    (c : String) (h : (processRow env cfg σ row).res = .ok ()) :
    (processRow env cfg σ row).tr.countP (isFilterCallFor c) =
      if row.id ∈ σ.known_realms then 0 else if row.id = c then 1 else 0 := by
  refine processRow_cases
    (fun r => r.res = .ok () → r.tr.countP (isFilterCallFor c) =
      if row.id ∈ σ.known_realms then 0 else if row.id = c then 1 else 0)
    ?_ ?_ ?_ ?_ ?_ ?_ ?_ h
  · intro hmem _
    simp [hmem]
  · intro _ _ habs
    simp at habs
  · intro hfresh _ _
    by_cases hc : row.id = c
    · subst hc
      simp [hfresh, isFilterCallFor, List.countP_cons, List.countP_nil]
    · simp [hfresh, hc, isFilterCallFor, List.countP_cons, List.countP_nil]
  · intro _ _ _ habs
    simp at habs
  · intro _ _ _ _ habs
    simp at habs
  · intro _ _ _ _ _ habs
    simp at habs
  · intro hfresh _ _ _ _ _
    by_cases hc : row.id = c
    · subst hc
      simp [hfresh, isFilterCallFor, acceptTrace, List.countP_cons, List.countP_nil]
    · simp [hfresh, hc, isFilterCallFor, acceptTrace, List.countP_cons, List.countP_nil]

lemma processRow_ok_mem {env : Env} {cfg : NCfg} {σ : NState} {row : AdminRow}
    (h : (processRow env cfg σ row).res = .ok ())
    (hfresh : row.id ∉ σ.known_realms) :
    Event.filterCall row.id row.path ∈ (processRow env cfg σ row).tr := by
  refine processRow_cases
    (fun r => r.res = .ok () → Event.filterCall row.id row.path ∈ r.tr)
    ?_ ?_ ?_ ?_ ?_ ?_ ?_ h
  · intro hmem _
    exact absurd hmem hfresh
  · intro _ _ habs
    simp at habs
  · intro _ _ _
    exact List.mem_cons_self _ _
  · intro _ _ _ habs
    simp at habs
  · intro _ _ _ _ habs
    simp at habs
  · intro _ _ _ _ _ habs
    simp at habs
  · intro _ _ _ _ _ _
    simp [acceptTrace]

/-- Executed row steps of one cycle never fail on a row of container `c`:
every row step that actually runs (earlier steps of the cycle succeeded)
either succeeds or fails on a row with a different id.  Rows after a failing
step are not constrained — the cycle aborts before reaching them. -/
def rowsSafeFor (env : Env) (cfg : NCfg) (c : String) : NState → List AdminRow → Bool
  | _, [] => true
  | σ, row :: rest =>
    match (processRow env cfg σ row).res with
    | .error _ => row.id != c
    | .ok _ => rowsSafeFor env cfg c (processRow env cfg σ row).st rest

/-- Across a sequence of `on_admin_change` invocations, no executed row step
fails on a row of container `c`.  Cycles skipped for an empty schema or
aborted by a schema violation never execute row steps, so they are
unconstrained; failures on other containers' rows are allowed. -/
def cyclesSafeFor (env : Env) (cfg : NCfg) (c : String) :
    NState → List AdminSnapshot → Bool
  | _, [] => true
  | σ, snap :: rest =>
    (if snap.group_is_empty then true
     else if !snap.has_realmfile_table then true
     else if !snap.has_id_col || !snap.has_path_col then true
     else rowsSafeFor env cfg c σ snap.rows) &&
    cyclesSafeFor env cfg c (on_admin_change env cfg snap σ).st rest

/-- A failing row step on a row of a different container contributes no filter
call for `c` and leaves membership of `c` in the known-ids set unchanged. -/
lemma processRow_error_c {env : Env} {cfg : NCfg} {σ : NState} {row : AdminRow}
    {c : String} {e : Err} {σf : NState} {tr : List Event}
    (h : processRow env cfg σ row = ⟨.error e, σf, tr⟩) (hne : row.id ≠ c) :
    tr.countP (isFilterCallFor c) = 0 ∧
    (c ∈ σf.known_realms ↔ c ∈ σ.known_realms) := by
  refine processRow_cases
    (fun r => r = ⟨Except.error e, σf, tr⟩ →
      tr.countP (isFilterCallFor c) = 0 ∧
      (c ∈ σf.known_realms ↔ c ∈ σ.known_realms))
    ?_ ?_ ?_ ?_ ?_ ?_ ?_ h
  · intro _ heq
    simp at heq
  · intro _ _ heq
    injection heq with he hst htr
    subst hst
    subst htr
    exact ⟨by simp [isFilterCallFor, hne, List.countP_cons, List.countP_nil], Iff.rfl⟩
  · intro _ _ heq
    simp at heq
  · intro _ _ _ heq
    injection heq with he hst htr
    subst hst
    subst htr
    exact ⟨by simp [isFilterCallFor, hne, List.countP_cons, List.countP_nil], Iff.rfl⟩
  · intro _ _ _ _ heq
    injection heq with he hst htr
    subst hst
    subst htr
    exact ⟨by simp [isFilterCallFor, hne, List.countP_cons, List.countP_nil], Iff.rfl⟩
  · intro _ _ _ _ _ heq
    injection heq with he hst htr
    subst hst
    subst htr
    refine ⟨by simp [acceptTrace, isFilterCallFor, hne, List.countP_cons,
      List.countP_nil], ?_⟩
    show c ∈ (acceptState env cfg σ row).known_realms ↔ c ∈ σ.known_realms
    constructor
    · intro hm
      rcases List.mem_cons.mp hm with heq2 | hm2
      · exact absurd heq2.symm hne
      · exact hm2
    · exact fun hm => List.mem_cons_of_mem _ hm
  · intro _ _ _ _ _ heq
    simp at heq

lemma runCycles_known_mono (env : Env) (cfg : NCfg) (snaps : List AdminSnapshot) :
    ∀ (σ : NState) (x : String), x ∈ σ.known_realms →
      x ∈ (runCycles env cfg σ snaps).st.known_realms := by
  induction snaps with
  | nil => exact fun σ x h => h
  | cons snap rest ih =>
    intro σ x h
    simp only [runCycles]
    exact ih _ _ (on_admin_change_known_mono env cfg snap σ x h)

/-- The row loop of one cycle, with failures on other containers' rows
allowed: the filter is called for `c` exactly once if `c` was fresh and ends
up known, never otherwise, and the one call carries `c`'s virtual path. -/
lemma processRows_safe_spec (env : Env) (cfg : NCfg) (c p : String) :
    ∀ (rows : List AdminRow) (σ : NState),
      rowsSafeFor env cfg c σ rows = true →
      (∀ row ∈ rows, row.id = c → row.path = p) →
      (((processRows env cfg σ rows).tr.countP (isFilterCallFor c) =
          if c ∈ σ.known_realms then 0
          else if c ∈ (processRows env cfg σ rows).st.known_realms then 1 else 0) ∧
       (c ∉ σ.known_realms →
          c ∈ (processRows env cfg σ rows).st.known_realms →
          Event.filterCall c p ∈ (processRows env cfg σ rows).tr)) := by
  intro rows
  induction rows with
  | nil =>
    intro σ _ _
    refine ⟨?_, fun hn hm => absurd hm hn⟩
    by_cases hc : c ∈ σ.known_realms <;> simp [processRows, hc]
  | cons row rest ih =>
    intro σ hsafe hp
    cases hres : (processRow env cfg σ row).res with
    | error e =>
      have hrow : processRow env cfg σ row =
          ⟨.error e, (processRow env cfg σ row).st, (processRow env cfg σ row).tr⟩ := by
        rw [← hres]
      have hne : row.id ≠ c := by
        simp only [rowsSafeFor, hres] at hsafe
        simpa using hsafe
      obtain ⟨hcnt, hiff⟩ := processRow_error_c hrow hne
      rw [processRows_cons_error hrow]
      refine ⟨?_, ?_⟩
      · show (processRow env cfg σ row).tr.countP (isFilterCallFor c) = _
        rw [hcnt]
        by_cases hcσ : c ∈ σ.known_realms
        · simp [hcσ]
        · have hc1 : c ∉ (processRow env cfg σ row).st.known_realms :=
            fun hm => hcσ (hiff.mp hm)
          simp [hcσ, hc1]
      · intro hcσ hmem
        exact absurd (hiff.mp hmem) hcσ
    | ok u =>
      cases u
      have hok : (processRow env cfg σ row).res = .ok () := hres
      have hknown := processRow_ok_known hok
      have hcount := processRow_ok_count c hok
      have hsafe2 : rowsSafeFor env cfg c (processRow env cfg σ row).st rest = true := by
        simpa only [rowsSafeFor, hres] using hsafe
      have hp2 : ∀ r ∈ rest, r.id = c → r.path = p :=
        fun r hr => hp r (List.mem_cons_of_mem _ hr)
      obtain ⟨ih1, ih2⟩ := ih (processRow env cfg σ row).st hsafe2 hp2
      simp only [processRows, hres]
      refine ⟨?_, ?_⟩
      · rw [List.countP_append, hcount, ih1]
        by_cases hcσ : c ∈ σ.known_realms
        · have hc1 : c ∈ (processRow env cfg σ row).st.known_realms := by
            rw [hknown]
            exact (mem_setInsert _ _ _).mpr (Or.inr hcσ)
          have hhead : (if row.id ∈ σ.known_realms then 0
              else if row.id = c then 1 else 0) = 0 := by
            by_cases hrm : row.id ∈ σ.known_realms
            · simp [hrm]
            · by_cases hrc : row.id = c
              · exact absurd (hrc ▸ hcσ) hrm
              · simp [hrm, hrc]
          rw [hhead]
          simp [hcσ, hc1]
        · by_cases hrc : row.id = c
          · subst hrc
            have hc1 : row.id ∈ (processRow env cfg σ row).st.known_realms := by
              rw [hknown]
              exact (mem_setInsert _ _ _).mpr (Or.inl rfl)
            have hfin : row.id ∈ (processRows env cfg (processRow env cfg σ row).st
                rest).st.known_realms :=
              processRows_known_mono env cfg rest _ _ hc1
            simp [hcσ, hc1, hfin]
          · have hc1 : c ∉ (processRow env cfg σ row).st.known_realms := by
              rw [hknown]
              intro hm
              rcases (mem_setInsert _ _ _).mp hm with heq | hm2
              · exact hrc heq.symm
              · exact hcσ hm2
            have hhead : (if row.id ∈ σ.known_realms then 0
                else if row.id = c then 1 else 0) = 0 := by
              by_cases hrm : row.id ∈ σ.known_realms <;> simp [hrm, hrc]
            rw [hhead]
            simp [hcσ, hc1]
      · intro hcσ hfin
        by_cases hrc : row.id = c
        · subst hrc
          have hmem1 := processRow_ok_mem hok hcσ
          have hpath : row.path = p := hp row (List.mem_cons_self _ _) rfl
          rw [← hpath]
          exact List.mem_append_left _ hmem1
        · have hc1 : c ∉ (processRow env cfg σ row).st.known_realms := by
            rw [hknown]
            intro hm
            rcases (mem_setInsert _ _ _).mp hm with heq | hm2
            · exact hrc heq.symm
            · exact hcσ hm2
          exact List.mem_append_right _ (ih2 hc1 hfin)

/-- One `on_admin_change` invocation, with failures on other containers' rows
(and schema failures) allowed: the filter is called for `c` exactly once if
`c` was fresh and the cycle made it known, never otherwise. -/
lemma on_admin_safe_spec (env : Env) (cfg : NCfg) (c p : String)
    (snap : AdminSnapshot) (σ : NState)
    (hsafe : (if snap.group_is_empty then true
              else if !snap.has_realmfile_table then true
              else if !snap.has_id_col || !snap.has_path_col then true
              else rowsSafeFor env cfg c σ snap.rows) = true)
    (hp : ∀ row ∈ snap.rows, row.id = c → row.path = p) :
    ((on_admin_change env cfg snap σ).tr.countP (isFilterCallFor c) =
       if c ∈ σ.known_realms then 0
       else if c ∈ (on_admin_change env cfg snap σ).st.known_realms then 1 else 0) ∧
    (c ∉ σ.known_realms → c ∈ (on_admin_change env cfg snap σ).st.known_realms →
       Event.filterCall c p ∈ (on_admin_change env cfg snap σ).tr) := by
  cases hge : snap.group_is_empty with
  | true =>
    have heq : on_admin_change env cfg snap σ = ⟨.ok (), σ, []⟩ := by
      simp [on_admin_change, hge]
    rw [heq]
    refine ⟨?_, fun hn hm => absurd hm hn⟩
    by_cases hc : c ∈ σ.known_realms <;> simp [hc]
  | false =>
    cases htab : snap.has_realmfile_table with
    | false =>
      have heq : on_admin_change env cfg snap σ =
          ⟨.error .schemaViolation1, σ, []⟩ := by
        simp [on_admin_change, hge, htab]
      rw [heq]
      refine ⟨?_, fun hn hm => absurd hm hn⟩
      by_cases hc : c ∈ σ.known_realms <;> simp [hc]
    | true =>
      cases hic : snap.has_id_col with
      | false =>
        have heq : on_admin_change env cfg snap σ =
            ⟨.error .schemaViolation2, σ, []⟩ := by
          simp [on_admin_change, hge, htab, hic]
        rw [heq]
        refine ⟨?_, fun hn hm => absurd hm hn⟩
        by_cases hc : c ∈ σ.known_realms <;> simp [hc]
      | true =>
        cases hpc : snap.has_path_col with
        | false =>
          have heq : on_admin_change env cfg snap σ =
              ⟨.error .schemaViolation2, σ, []⟩ := by
            simp [on_admin_change, hge, htab, hic, hpc]
          rw [heq]
          refine ⟨?_, fun hn hm => absurd hm hn⟩
          by_cases hc : c ∈ σ.known_realms <;> simp [hc]
        | true =>
          have heq : on_admin_change env cfg snap σ =
              processRows env cfg σ snap.rows := by
            simp [on_admin_change, hge, htab, hic, hpc]
          rw [heq]
          have hsafe2 : rowsSafeFor env cfg c σ snap.rows = true := by
            simpa [hge, htab, hic, hpc] using hsafe
          exact processRows_safe_spec env cfg c p snap.rows σ hsafe2 hp

/-- A whole run with failures allowed anywhere except on `c`'s own rows: the
filter is invoked for `c` exactly once if `c` was fresh and ends up in the
known-ids set, never otherwise, and the one invocation carries `c`'s virtual
path. -/
lemma runCycles_safe_spec (env : Env) (cfg : NCfg) (c p : String) :
    ∀ (snaps : List AdminSnapshot) (σ : NState),
      cyclesSafeFor env cfg c σ snaps = true →
      (∀ snap ∈ snaps, ∀ row ∈ snap.rows, row.id = c → row.path = p) →
      (((runCycles env cfg σ snaps).tr.countP (isFilterCallFor c) =
          if c ∈ σ.known_realms then 0
          else if c ∈ (runCycles env cfg σ snaps).st.known_realms then 1 else 0) ∧
       (c ∉ σ.known_realms → c ∈ (runCycles env cfg σ snaps).st.known_realms →
          Event.filterCall c p ∈ (runCycles env cfg σ snaps).tr)) := by
  intro snaps
  induction snaps with
  | nil =>
    intro σ _ _
    refine ⟨?_, fun hn hm => absurd hm hn⟩
    by_cases hc : c ∈ σ.known_realms <;> simp [runCycles, hc]
  | cons snap rest ih =>
    intro σ hsafe hp
    simp only [cyclesSafeFor, Bool.and_eq_true] at hsafe
    obtain ⟨hsafe1, hsafe2⟩ := hsafe
    have hp1 : ∀ row ∈ snap.rows, row.id = c → row.path = p :=
      hp snap (List.mem_cons_self _ _)
    have hpr : ∀ s ∈ rest, ∀ row ∈ s.rows, row.id = c → row.path = p :=
      fun s hs => hp s (List.mem_cons_of_mem _ hs)
    obtain ⟨a1, a2⟩ := on_admin_safe_spec env cfg c p snap σ hsafe1 hp1
    obtain ⟨b1, b2⟩ := ih (on_admin_change env cfg snap σ).st hsafe2 hpr
    simp only [runCycles]
    refine ⟨?_, ?_⟩
    · rw [List.countP_append, a1, b1]
      by_cases hcσ : c ∈ σ.known_realms
      · have hc1 : c ∈ (on_admin_change env cfg snap σ).st.known_realms :=
          on_admin_change_known_mono env cfg snap σ c hcσ
        simp [hcσ, hc1]
      · by_cases hc1 : c ∈ (on_admin_change env cfg snap σ).st.known_realms
        · have hfin : c ∈ (runCycles env cfg (on_admin_change env cfg snap σ).st
              rest).st.known_realms :=
            runCycles_known_mono env cfg rest _ c hc1
          simp [hcσ, hc1, hfin]
        · simp [hcσ, hc1]
    · intro hcσ hfin
      by_cases hc1 : c ∈ (on_admin_change env cfg snap σ).st.known_realms
      · exact List.mem_append_left _ (a2 hcσ hc1)
      · exact List.mem_append_right _ (b2 hc1 hfin)

/-- Like `envW`, but opening the session for container "a" fails — the spec's
SessionOpenFailure path, which evicts the id from the known set for retry. -/
def envFailAW : Env :=
  { envW with session_fails := fun lp _ => lp == "/root/realms/a.realm" }

/-- Counterexample for C1 as stated: container "a" appears as a row of the
admin container and is processed by `on_admin_change` in each of two cycles
(its session open fails, so the code evicts it from the known-ids set and
re-evaluates it on the next cycle); the filter predicate is invoked twice with
"a"'s virtual path, not exactly once. -/
theorem claim_C1_counterexample :
    (runCycles envFailAW cfgW initState [snapAW, snapAW]).tr =
      [Event.filterCall "a" "/a", Event.filterCall "a" "/a"] ∧
    (runCycles envFailAW cfgW initState [snapAW, snapAW]).tr.countP
      (isFilterCallFor "a") = 2 :=
  ⟨rfl, rfl⟩

/-- C1 (amended): when processing of a container's own row fails, the code
deliberately evicts the id and re-invokes the filter on a later cycle
(`claim_C1_counterexample`), so exactly-once holds for containers whose own
row steps never fail.  Precisely: from a fresh controller, over any sequence
of `on_admin_change` invocations in which no executed row step fails on a row
of container `c` — schema failures and failures on other containers' rows may
occur in any cycle — if `c` has been processed (it entered the known-ids set,
the code's record of processed ids), then the filter predicate was invoked
exactly once for `c`, with `c`'s virtual path, regardless of how many
subsequent cycles ran and of whether the filter accepted or rejected `c`. -/
theorem claim_C1 (env : Env) (cfg : NCfg) (snaps : List AdminSnapshot) (c p : String)
    (hsafe : cyclesSafeFor env cfg c initState snaps = true)
    (hdone : c ∈ (runCycles env cfg initState snaps).st.known_realms)
    (hpath : ∀ snap ∈ snaps, ∀ row ∈ snap.rows, row.id = c → row.path = p) :
    (runCycles env cfg initState snaps).tr.countP (isFilterCallFor c) = 1 ∧
    Event.filterCall c p ∈ (runCycles env cfg initState snaps).tr := by
  obtain ⟨h1, h2⟩ := runCycles_safe_spec env cfg c p snaps initState hsafe hpath
  have hinit : c ∉ initState.known_realms := List.not_mem_nil c
  refine ⟨?_, h2 hinit hdone⟩
  rw [h1]
  simp [hinit, hdone]

/-- Witness for the amended C1: a cycle that fails on container "b"'s session
open after processing "a"; the filter still ran exactly once for "a". -/
theorem claim_C1_witness :
    (runCycles envFailW cfgW initState [snapABW]).tr.countP (isFilterCallFor "a") = 1 ∧
    Event.filterCall "a" "/a" ∈ (runCycles envFailW cfgW initState [snapABW]).tr :=
  claim_C1 envFailW cfgW [snapABW] "a" "/a" rfl (by decide) (by decide)
